import Mathlib

/-!
Verification development for the network-definition module of SurrealGAN
(`SurrealGAN/networks.py`).  The module declares five small feed-forward
networks over batched 2-D tensors: a mapping generator, an encoder, a
decomposer, a discriminator and a latent-correlation network, together with a
weight initializer.  We embed the tensor operations shallowly: a row is a
`List ℚ` (reals for the latent-correlation network, whose claim is about the
range of `tanh`), a batch tensor of shape `[b, n]` is a `List (List ℚ)` with
`b` rows of length `n`, and fallible tensor operations (which raise shape
errors at runtime) return `Option`.
-/

namespace SurrealGAN

/-- LeakyReLU activation `nn.LeakyReLU(slope)` : identity on nonnegative
inputs, multiplication by the negative slope otherwise. -/
def leakyReLU (slope x : ℚ) : ℚ := if x < 0 then slope * x else x

/-- Dot product of two rows of equal length. -/
def dotQ (xs ys : List ℚ) : ℚ := (List.zipWith (fun a b => a * b) xs ys).sum

/-- A `torch.nn.Linear` layer: fan-in, fan-out, weight matrix of shape
`[outF, inF]` and optional bias vector of length `outF`. -/
structure Linear where
  inF : ℕ
  outF : ℕ
  weight : List (List ℚ)
  bias : Option (List ℚ)

/-- Construction `nn.Linear(inF, outF, bias := useBias)` : allocates a weight
matrix of shape `[outF, inF]` and, when `useBias`, a bias vector of length
`outF`; the entries come from the seed functions, modelling the random
initialization of the framework. -/
def Linear.build (inF outF : ℕ) (useBias : Bool) (wseed bseed : ℕ → ℕ → ℚ) : Linear :=
  { inF := inF
    outF := outF
    weight := (List.range outF).map fun i => (List.range inF).map fun j => wseed i j
    bias := if useBias then some ((List.range outF).map fun i => bseed i 0) else none }

/-- Application of a linear layer to a single row: `W x + b`.  The `none`
result models the runtime shape-mismatch error the framework raises when the
input width differs from the fan-in of the layer. -/
def Linear.apply (l : Linear) (x : List ℚ) : Option (List ℚ) :=
  if x.length = l.inF then
    some (match l.bias with
      | some b => List.zipWith (fun row bi => dotQ row x + bi) l.weight b
      | none => l.weight.map fun row => dotQ row x)
  else none

/-- One stage of an `nn.Sequential` stack as used in this file: either a
linear layer or a LeakyReLU activation. -/
inductive Layer where
  | lin (l : Linear)
  | lrelu (slope : ℚ)

/-- Application of a single stage to a row. -/
def Layer.applyL : Layer → List ℚ → Option (List ℚ)
  | Layer.lin l, x => l.apply x
  | Layer.lrelu s, x => some (x.map (leakyReLU s))

/-- Application of an `nn.Sequential` stack to a row, propagating shape
errors. -/
def seqApply : List Layer → List ℚ → Option (List ℚ)
  | [], x => some x
  | l :: ls, x => (l.applyL x).bind (seqApply ls)

/-- Row-wise application of a one-input module to a batch tensor: the batched
linear and activation operations of the framework act independently on each
row. -/
def mapRows (f : List ℚ → Option (List ℚ)) : List (List ℚ) → Option (List (List ℚ))
  | [] => some []
  | r :: rs => (f r).bind fun o => (mapRows f rs).map fun os => o :: os

/-- Python `int(...)` truncation toward zero, on a rational value. -/
def pyInt (q : ℚ) : ℤ := if q < 0 then -⌊-q⌋ else ⌊q⌋

/-- Python `int(n / d)` for natural `n`, `d` : true division followed by
truncation, as written in the source (`int(nROI / 2)`, `int(nROI / 4)`). -/
def pyDiv (n d : ℕ) : ℕ := (pyInt ((n : ℚ) / (d : ℚ))).toNat

/-- Python slice `z[:, a:b]` restricted to one row: the columns `a ≤ j < b`
(clamped at the end of the row, as in Python). -/
def sliceCols (xs : List ℚ) (a b : ℕ) : List ℚ := (xs.drop a).take (b - a)

/-- Concatenation `torch.cat(ts, dim=1)` along the feature axis of a list of
batch tensors, each with `batch` rows. -/
def catFeature (batch : ℕ) : List (List (List ℚ)) → List (List ℚ)
  | [] => List.replicate batch []
  | t :: ts => List.zipWith (fun r s => r ++ s) t (catFeature batch ts)

/-- Shape summary of a sequential stage: kind, fan-in/fan-out and bias
presence for linear layers, negative slope for LeakyReLU stages. -/
inductive LayerShape where
  | lin (inF outF : ℕ) (hasBias : Bool)
  | lrelu (slope : ℚ)
deriving DecidableEq

/-- Shape summary of a stage. -/
def Layer.shape : Layer → LayerShape
  | Layer.lin l => LayerShape.lin l.inF l.outF l.bias.isSome
  | Layer.lrelu s => LayerShape.lrelu s

/-- The `LDecompose` module: the stored construction parameters and the
two-stage sequential model. -/
structure LDecompose where
  nPattern : ℕ
  nROI : ℕ
  model : List Layer

/-- Constructor `LDecompose.__init__(nPattern, nROI)` : stores both
parameters and builds `block(int(nROI), int(nPattern * nROI))` where
`block(i, o) = [LeakyReLU(0.2), Linear(i, o)]` (bias left at its default,
true). -/
def LDecompose.build (nPattern nROI : ℕ) (ws bs : ℕ → ℕ → ℚ) : LDecompose :=
  { nPattern := nPattern
    nROI := nROI
    model := [Layer.lrelu (1 / 5), Layer.lin (Linear.build nROI (nPattern * nROI) true ws bs)] }

/-- Wide pre-split tensor `z_decompose = self.model(input_y)` of
`LDecompose.forward`. -/
def LDecompose.preSplit (d : LDecompose) (xs : List (List ℚ)) : Option (List (List ℚ)) :=
  mapRows (seqApply d.model) xs

/-- Slicing step of `LDecompose.forward` :
`[z_decompose[:, self.nROI * i : self.nROI * (i + 1)] for i in range(self.nPattern)]`.
The number of slices and the slice boundaries come from the stored fields. -/
def LDecompose.slices (d : LDecompose) (z : List (List ℚ)) : List (List (List ℚ)) :=
  (List.range d.nPattern).map fun i =>
    z.map fun row => sliceCols row (d.nROI * i) (d.nROI * (i + 1))

/-- Forward pass of `LDecompose` on a batch tensor: run the model, then slice
the wide result. -/
def LDecompose.forward (d : LDecompose) (xs : List (List ℚ)) :
    Option (List (List (List ℚ))) :=
  (d.preSplit xs).map d.slices

/-- The `LEncoder` module: the stored `nPattern` and the five-stage
sequential model. -/
structure LEncoder where
  nPattern : ℕ
  model : List Layer

/-- Constructor `LEncoder.__init__(nPattern, nROI)` :
`[Linear(nROI, int(nROI/2))] + block(int(nROI/2), int(nROI/4)) + block(int(nROI/4), nPattern)`
where `block(i, o) = [LeakyReLU(0.2), Linear(i, o)]`; every linear layer keeps
the default bias. -/
def LEncoder.build (nPattern nROI : ℕ) (w1 b1 w2 b2 w3 b3 : ℕ → ℕ → ℚ) : LEncoder :=
  { nPattern := nPattern
    model := [Layer.lin (Linear.build nROI (pyDiv nROI 2) true w1 b1),
      Layer.lrelu (1 / 5),
      Layer.lin (Linear.build (pyDiv nROI 2) (pyDiv nROI 4) true w2 b2),
      Layer.lrelu (1 / 5),
      Layer.lin (Linear.build (pyDiv nROI 4) nPattern true w3 b3)] }

/-- Forward pass of `LEncoder` on a batch tensor. -/
def LEncoder.forward (e : LEncoder) (xs : List (List ℚ)) : Option (List (List ℚ)) :=
  mapRows (seqApply e.model) xs

/-- The `LDiscriminator` module. -/
structure LDiscriminator where
  model : List Layer

/-- Constructor `LDiscriminator.__init__(nROI)` :
`Sequential(Linear(nROI, int(nROI/2), bias=True), LeakyReLU(0.2), Linear(int(nROI/2), int(nROI/4), bias=True), LeakyReLU(0.2), Linear(int(nROI/4), 2, bias=True))`. -/
def LDiscriminator.build (nROI : ℕ) (w1 b1 w2 b2 w3 b3 : ℕ → ℕ → ℚ) : LDiscriminator :=
  { model := [Layer.lin (Linear.build nROI (pyDiv nROI 2) true w1 b1),
      Layer.lrelu (1 / 5),
      Layer.lin (Linear.build (pyDiv nROI 2) (pyDiv nROI 4) true w2 b2),
      Layer.lrelu (1 / 5),
      Layer.lin (Linear.build (pyDiv nROI 4) 2 true w3 b3)] }

/-- Forward pass of `LDiscriminator` on a batch tensor. -/
def LDiscriminator.forward (d : LDiscriminator) (xs : List (List ℚ)) :
    Option (List (List ℚ)) :=
  mapRows (seqApply d.model) xs

/-- Modelled from the spec: the composition primitive `Sub_Adder` lives in
`SurrealGAN.modules`, whose source is not part of this repository.  Per the
spec it takes the current activation (its first input, `inDim`-wide) together
with `input_z`, projects the activation to `nPattern` width and fuses it
additively with `input_z`, producing an `nPattern`-wide combined
representation.  We model the projection as a linear layer of fan-in `inDim`
and fan-out `nPattern`. -/
structure SubAdder where
  proj : Linear

/-- Modelled from the spec: construction `Sub_Adder(inDim, nPattern)`. -/
def SubAdder.build (inDim nPattern : ℕ) (ws bs : ℕ → ℕ → ℚ) : SubAdder :=
  { proj := Linear.build inDim nPattern true ws bs }

/-- Modelled from the spec: forward of `Sub_Adder` — project the activation
`x` to `nPattern` width and add `input_z` elementwise; `none` models a shape
mismatch error. -/
def SubAdder.applyS (s : SubAdder) (x z : List ℚ) : Option (List ℚ) :=
  (s.proj.apply x).bind fun p =>
    if z.length = p.length then some (List.zipWith (fun a b => a + b) p z) else none

/-- One stage of a `TwoInputSequential` stack.  Modelled from the spec: the
container threads the side input `input_z` only into the stage that declared
it needs two inputs (the composition primitive); every other stage receives
only the primary activation. -/
inductive GLayer where
  | single (l : Layer)
  | dual (s : SubAdder)

/-- Modelled from the spec: forward of `TwoInputSequential`, threading the
side input `z` to the dual-input stage only. -/
def twoInputApply : List GLayer → List ℚ → List ℚ → Option (List ℚ)
  | [], x, _ => some x
  | GLayer.single l :: ls, x, z => (l.applyL x).bind fun y => twoInputApply ls y z
  | GLayer.dual s :: ls, x, z => (s.applyS x z).bind fun y => twoInputApply ls y z

/-- The `LMappingGenerator` module. -/
structure LMappingGenerator where
  model : List GLayer

/-- Constructor `LMappingGenerator.__init__(nPattern, nROI, product_layer=Sub_Adder)` :
`block(nROI, int(nROI/2)) + block(int(nROI/2), int(nROI/4)) + [Sub_Adder(int(nROI/4), nPattern)] + block(int(nROI/4), int(nROI/2)) + block(int(nROI/2), nROI)`
where `block(i, o) = [Linear(i, o, bias=False), LeakyReLU(0.2)]` (the
`normalize` flag is false on every call, so no BatchNorm stage is added). -/
def LMappingGenerator.build (nPattern nROI : ℕ)
    (w1 w2 wS bS w3 w4 : ℕ → ℕ → ℚ) : LMappingGenerator :=
  { model := [
      GLayer.single (Layer.lin (Linear.build nROI (pyDiv nROI 2) false w1 w1)),
      GLayer.single (Layer.lrelu (1 / 5)),
      GLayer.single (Layer.lin (Linear.build (pyDiv nROI 2) (pyDiv nROI 4) false w2 w2)),
      GLayer.single (Layer.lrelu (1 / 5)),
      GLayer.dual (SubAdder.build (pyDiv nROI 4) nPattern wS bS),
      GLayer.single (Layer.lin (Linear.build (pyDiv nROI 4) (pyDiv nROI 2) false w3 w3)),
      GLayer.single (Layer.lrelu (1 / 5)),
      GLayer.single (Layer.lin (Linear.build (pyDiv nROI 2) nROI false w4 w4)),
      GLayer.single (Layer.lrelu (1 / 5))] }

/-- Row-wise application of a two-input module to a pair of batch tensors
(`none` when the batch sizes disagree, modelling a broadcast error). -/
def mapRows2 (f : List ℚ → List ℚ → Option (List ℚ)) :
    List (List ℚ) → List (List ℚ) → Option (List (List ℚ))
  | [], [] => some []
  | [], _ :: _ => none
  | _ :: _, [] => none
  | x :: xs, z :: zs => (f x z).bind fun o => (mapRows2 f xs zs).map fun os => o :: os

/-- Forward pass `LMappingGenerator.forward(input_x, input_z)` on a pair of
batch tensors. -/
def LMappingGenerator.forward (g : LMappingGenerator) (xs zs : List (List ℚ)) :
    Option (List (List ℚ)) :=
  mapRows2 (fun x z => twoInputApply g.model x z) xs zs

/-- Shape summary of a `TwoInputSequential` stage. -/
inductive GLayerShape where
  | single (s : LayerShape)
  | dual (inDim nPattern : ℕ)
deriving DecidableEq

/-- Shape summary of a generator stage. -/
def GLayer.shape : GLayer → GLayerShape
  | GLayer.single l => GLayerShape.single l.shape
  | GLayer.dual s => GLayerShape.dual s.proj.inF s.proj.outF

/-- Abstraction of a `torch.nn` module as seen by `weights_init` : its class
name and its `weight` and (possible) `bias` parameter tensors. -/
structure TorchModule where
  className : String
  weight : List (List ℚ)
  bias : Option (List ℚ)

/-- Character-list test used to model Python substring search: does the
pattern occur at the head? -/
def startsWithChars : List Char → List Char → Bool
  | [], _ => true
  | _ :: _, [] => false
  | p :: ps, c :: cs => (p = c) && startsWithChars ps cs

/-- Does the pattern occur as a contiguous run anywhere in the list? -/
def containsChars (pat : List Char) : List Char → Bool
  | [] => startsWithChars pat []
  | c :: t => startsWithChars pat (c :: t) || containsChars pat t

/-- Python `s.find(pat) != -1` : does `pat` occur as a contiguous substring
of `s`? -/
def strFind (s pat : String) : Bool := containsChars pat.toList s.toList

/-- The initializer `weights_init(m)` : when the class name of the module contains
"Linear", overwrite its weight tensor in place with a fresh draw
`m.weight.data.normal_(0, 0.1)`; otherwise do nothing.  The random draw is
modelled by the oracle `normal`, mapping the mean and the standard deviation
to the sampled tensor. -/
def weights_init (normal : ℚ → ℚ → List (List ℚ)) (m : TorchModule) : TorchModule :=
  if strFind m.className "Linear" then { m with weight := normal 0 (1 / 10) } else m

/-- LeakyReLU over the reals, for the latent-correlation network. -/
noncomputable def leakyReLUR (slope x : ℝ) : ℝ := if x < 0 then slope * x else x

/-- Dot product over the reals. -/
noncomputable def dotR (xs ys : List ℝ) : ℝ := (List.zipWith (fun a b => a * b) xs ys).sum

/-- The `LLatentCorr` module: the weight column of `Linear(1, ndim, bias=False)`
and the weight matrix of `Linear(ndim, ndim, bias=False)`. -/
structure LLatentCorr where
  w1 : List ℝ
  w2 : List (List ℝ)

/-- Constructor `LLatentCorr.__init__(ndim)` : allocates the two bias-free
linear layers, with entries from the seed functions. -/
noncomputable def LLatentCorr.build (ndim : ℕ) (s1 s2 : ℕ → ℕ → ℝ) : LLatentCorr :=
  { w1 := (List.range ndim).map fun i => s1 i 0
    w2 := (List.range ndim).map fun i => (List.range ndim).map fun j => s2 i j }

/-- Value of the fresh trainable input `nn.Parameter(torch.tensor([1.0]))`
constructed inside every call of `LLatentCorr.forward`. -/
noncomputable def freshParam : ℝ := 1

/-- Output of the latent-correlation pipeline when the scalar input is `c` :
`F.tanh(Linear(ndim, ndim, bias=False)(LeakyReLU(0.2)(Linear(1, ndim, bias=False)([c]))))`. -/
noncomputable def LLatentCorr.outputWith (m : LLatentCorr) (c : ℝ) : List ℝ :=
  ((m.w2.map fun row => dotR row ((m.w1.map fun w => w * c).map (leakyReLUR (1 / 5)))).map
    Real.tanh)

/-- Forward pass `LLatentCorr.forward()` : returns the (unchanged) module
state together with the output computed from a fresh parameter initialized to
1.0, which is not retained in the state. -/
noncomputable def LLatentCorr.forward (m : LLatentCorr) : LLatentCorr × List ℝ :=
  (m, m.outputWith freshParam)

/- ### Helper lemmas -/

theorem pyDiv_eq (n d : ℕ) : pyDiv n d = n / d := by
  have h0 : ¬((n : ℚ) / (d : ℚ) < 0) :=
    not_lt.2 (div_nonneg (Nat.cast_nonneg n) (Nat.cast_nonneg d))
  rw [pyDiv, pyInt, if_neg h0, Int.floor_toNat, Nat.floor_div_eq_div]

theorem Linear.build_inF (i o : ℕ) (ub : Bool) (ws bs : ℕ → ℕ → ℚ) :
    (Linear.build i o ub ws bs).inF = i := rfl

theorem Linear.build_apply (i o : ℕ) (ub : Bool) (ws bs : ℕ → ℕ → ℚ)
    (x : List ℚ) (hx : x.length = i) :
    ∃ y, (Linear.build i o ub ws bs).apply x = some y ∧ y.length = o := by
  rw [Linear.apply]
  rw [Linear.build]
  simp only [hx, if_pos rfl]
  cases ub with
  | false => exact ⟨_, rfl, by simp⟩
  | true => exact ⟨_, rfl, by simp⟩

theorem lrelu_apply (s : ℚ) (x : List ℚ) :
    (Layer.lrelu s).applyL x = some (x.map (leakyReLU s)) := rfl

theorem mapRows_shape (f : List ℚ → Option (List ℚ)) (n : ℕ) :
    ∀ xs : List (List ℚ), (∀ r ∈ xs, ∃ o, f r = some o ∧ o.length = n) →
      ∃ out, mapRows f xs = some out ∧ out.length = xs.length ∧
        ∀ o ∈ out, o.length = n := by
  intro xs
  induction xs with
  | nil => intro _; exact ⟨[], rfl, rfl, by simp⟩
  | cons r rs ih =>
    intro h
    obtain ⟨o, ho, hol⟩ := h r (List.mem_cons_self r rs)
    obtain ⟨out, hout, houtl, houtr⟩ := ih fun r hr => h r (List.mem_cons_of_mem _ hr)
    refine ⟨o :: out, ?_, by simp [houtl], ?_⟩
    · simp [mapRows, ho, hout]
    · intro t ht
      rcases List.mem_cons.1 ht with h1 | h2
      · exact h1 ▸ hol
      · exact houtr t h2

theorem sliceCols_length (xs : List ℚ) (a k : ℕ) (h : a + k ≤ xs.length) :
    (sliceCols xs a (a + k)).length = k := by
  rw [sliceCols]
  simp only [List.length_take, List.length_drop]
  omega

theorem zipWith_map_same {α β γ δ : Type} (h : β → γ → δ) (f : α → β) (g : α → γ)
    (z : List α) : List.zipWith h (z.map f) (z.map g) = z.map fun x => h (f x) (g x) := by
  induction z with
  | nil => rfl
  | cons a as ih => simp [ih]

theorem map_nil_replicate (z : List (List ℚ)) :
    z.map (fun _ => ([] : List ℚ)) = List.replicate z.length [] := by
  induction z with
  | nil => rfl
  | cons r rs ih => simp [ih, List.replicate_succ]

theorem catFeature_map_rows (b : ℕ) :
    ∀ (fs : List (List ℚ → List ℚ)) (z : List (List ℚ)), z.length = b →
      catFeature b (fs.map fun f => z.map f) =
        z.map fun row => (fs.map fun f => f row).flatten := by
  intro fs
  induction fs with
  | nil =>
    intro z hz
    rw [← hz]
    exact (map_nil_replicate z).symm
  | cons f fs ih =>
    intro z hz
    simp only [List.map_cons, catFeature]
    rw [ih z hz, zipWith_map_same]
    simp

theorem flatten_chunks (k : ℕ) :
    ∀ (n : ℕ) (row : List ℚ), row.length = n * k →
      ((List.range n).map fun i => sliceCols row (k * i) (k * (i + 1))).flatten = row := by
  intro n
  induction n with
  | zero =>
    intro row hrow
    rw [Nat.zero_mul] at hrow
    rw [List.length_eq_zero] at hrow
    simp [hrow]
  | succ m ih =>
    intro row hrow
    rw [List.range_succ_eq_map]
    simp only [List.map_cons, List.map_map, List.flatten_cons]
    have h0 : sliceCols row (k * 0) (k * (0 + 1)) = row.take k := by
      simp [sliceCols]
    have hrest : ∀ i : ℕ,
        sliceCols row (k * (i + 1)) (k * (i + 1 + 1)) =
          sliceCols (row.drop k) (k * i) (k * (i + 1)) := by
      intro i
      have e2 : k * (i + 1 + 1) - k * (i + 1) = k := by
        rw [Nat.mul_succ k (i + 1)]
        omega
      have e3 : k * (i + 1) - k * i = k := by
        rw [Nat.mul_succ k i]
        omega
      rw [sliceCols, sliceCols, e2, e3, List.drop_drop]
      congr 2
      rw [Nat.mul_succ k i]
      omega
    have hcomp :
        ((fun i => sliceCols row (k * i) (k * (i + 1))) ∘ Nat.succ) =
          fun i => sliceCols (row.drop k) (k * i) (k * (i + 1)) := by
      funext i
      exact hrest i
    rw [h0, hcomp]
    have hlen : (row.drop k).length = m * k := by
      rw [List.length_drop, hrow, Nat.succ_mul]
      omega
    rw [ih (row.drop k) hlen]
    exact List.take_append_drop k row

theorem slices_length (d : LDecompose) (z : List (List ℚ)) :
    (d.slices z).length = d.nPattern := by
  simp [LDecompose.slices]

theorem slices_getD (d : LDecompose) (z : List (List ℚ)) (i : ℕ)
    (hi : i < d.nPattern) :
    (d.slices z).getD i [] =
      z.map fun row => sliceCols row (d.nROI * i) (d.nROI * (i + 1)) := by
  rw [LDecompose.slices, List.getD_eq_getElem?_getD, List.getElem?_map,
    List.getElem?_range hi]
  rfl

/-- Constant zero seed used by concrete witnesses. -/
def zeroSeed : ℕ → ℕ → ℚ := fun _ _ => 0

theorem LDecompose.rowShapeDec (nPattern nROI : ℕ) (ws bs : ℕ → ℕ → ℚ) (x : List ℚ)
    (hx : x.length = nROI) :
    ∃ y, seqApply (LDecompose.build nPattern nROI ws bs).model x = some y ∧
      y.length = nPattern * nROI := by
  obtain ⟨y, hy, hyl⟩ := Linear.build_apply nROI (nPattern * nROI) true ws bs
    (x.map (leakyReLU (1 / 5))) (by simp [hx])
  refine ⟨y, ?_, hyl⟩
  simp only [LDecompose.build, seqApply, Layer.applyL, Option.some_bind]
  rw [hy]
  rfl

/-- Claim C1: for every constructed Decomposer (nPattern ≥ 1, nROI ≥ 1) and
every input tensor of shape [batch, nROI], forward returns an ordered list of
exactly nPattern tensors where slice i equals columns [i*nROI, (i+1)*nROI) of
the wide pre-split tensor of shape [batch, nPattern*nROI], and concatenating
the slices in order along the feature axis reproduces the pre-split tensor
exactly. -/
theorem LDecompose.roundtrip (nPattern nROI b : ℕ) (ws bs : ℕ → ℕ → ℚ)
    (xs : List (List ℚ)) (hP : 1 ≤ nPattern) (hR : 1 ≤ nROI)
    (hb : xs.length = b) (hrow : ∀ r ∈ xs, r.length = nROI) :
    ∃ z out,
      (LDecompose.build nPattern nROI ws bs).preSplit xs = some z ∧
        z.length = b ∧ (∀ r ∈ z, r.length = nPattern * nROI) ∧
        (LDecompose.build nPattern nROI ws bs).forward xs = some out ∧
        out.length = nPattern ∧
        (∀ i, i < nPattern →
          out.getD i [] =
            z.map (fun row => sliceCols row (nROI * i) (nROI * (i + 1))) ∧
          (out.getD i []).length = b ∧
          ∀ r ∈ out.getD i [], r.length = nROI) ∧
        catFeature b out = z := by
  obtain ⟨z, hz, hzb, hzrow⟩ :=
    mapRows_shape (seqApply (LDecompose.build nPattern nROI ws bs).model)
      (nPattern * nROI) xs
      (fun r hr => LDecompose.rowShapeDec nPattern nROI ws bs r (hrow r hr))
  have hzb2 : z.length = b := hzb.trans hb
  refine ⟨z, (LDecompose.build nPattern nROI ws bs).slices z, hz, hzb2, hzrow, ?_, ?_, ?_, ?_⟩
  · show ((LDecompose.build nPattern nROI ws bs).preSplit xs).map _ = _
    show (mapRows (seqApply (LDecompose.build nPattern nROI ws bs).model) xs).map _ = _
    rw [hz]
    rfl
  · exact slices_length _ z
  · intro i hi
    have hget := slices_getD (LDecompose.build nPattern nROI ws bs) z i hi
    rw [show (LDecompose.build nPattern nROI ws bs).nROI = nROI from rfl] at hget
    refine ⟨hget, ?_, ?_⟩
    · rw [hget]
      simp [hzb2]
    · intro r hr
      rw [hget] at hr
      obtain ⟨row, hrowz, hslice⟩ := List.mem_map.1 hr
      have hrl : row.length = nPattern * nROI := hzrow row hrowz
      have hkey : nROI * i + nROI ≤ row.length := by
        rw [hrl, Nat.mul_comm nPattern nROI]
        have h2 : nROI * (i + 1) ≤ nROI * nPattern := mul_le_mul_left' hi nROI
        rw [Nat.mul_succ] at h2
        omega
      have := sliceCols_length row (nROI * i) nROI hkey
      rw [← hslice]
      have harg : nROI * (i + 1) = nROI * i + nROI := Nat.mul_succ nROI i
      rw [harg]
      exact this
  · have hfs := catFeature_map_rows b
      ((List.range nPattern).map fun i =>
        fun row => sliceCols row (nROI * i) (nROI * (i + 1))) z hzb2
    rw [List.map_map] at hfs
    have hrowq : ∀ row ∈ z,
        (((List.range nPattern).map fun i =>
            fun r => sliceCols r (nROI * i) (nROI * (i + 1))).map fun f => f row).flatten =
          row := by
      intro row hrz
      rw [List.map_map]
      exact flatten_chunks nROI nPattern row (hzrow row hrz)
    have hz2 : z.map (fun row =>
        (((List.range nPattern).map fun i =>
          fun r => sliceCols r (nROI * i) (nROI * (i + 1))).map fun f => f row).flatten) = z :=
      (List.map_congr_left fun row hr => hrowq row hr).trans (List.map_id z)
    exact hfs.trans hz2

/-- Witness for C1 at nPattern = 2, nROI = 2, batch [[0, 0]]. -/
theorem LDecompose.roundtrip_witness :
    ∃ z out,
      (LDecompose.build 2 2 zeroSeed zeroSeed).preSplit [[0, 0]] = some z ∧
        z.length = 1 ∧ (∀ r ∈ z, r.length = 2 * 2) ∧
        (LDecompose.build 2 2 zeroSeed zeroSeed).forward [[0, 0]] = some out ∧
        out.length = 2 ∧
        (∀ i, i < 2 →
          out.getD i [] =
            z.map (fun row => sliceCols row (2 * i) (2 * (i + 1))) ∧
          (out.getD i []).length = 1 ∧
          ∀ r ∈ out.getD i [], r.length = 2) ∧
        catFeature 1 out = z :=
  LDecompose.roundtrip 2 2 1 zeroSeed zeroSeed [[0, 0]] (by norm_num) (by norm_num) rfl
    (by simp)

/-- Counterexample to claim C10 as stated: for a Decomposer built with
nPattern = 1 and nROI = 2, an input whose feature width is 3 (different from
the stored nROI) makes forward fail with a shape error inside the linear
layer, so no list at all is returned — rather than a list of length
nPattern. -/
theorem LDecompose.width_cex :
    ¬∃ out, (LDecompose.build 1 2 zeroSeed zeroSeed).forward [[0, 0, 0]] = some out := by
  have hnone : (LDecompose.build 1 2 zeroSeed zeroSeed).forward [[0, 0, 0]] = none := by
    simp [LDecompose.forward, LDecompose.preSplit, LDecompose.build, mapRows, seqApply,
      Layer.applyL, Linear.apply, Linear.build]
  rw [hnone]
  simp

/-- Claim C10 (amended): for every constructed Decomposer, the slicing step
always produces a list whose length is the stored nPattern, for an input of
any shape; and whenever the input rows have the stored nROI width (so that
the model does not raise), forward returns a list of exactly nPattern batch
tensors — in particular, nPattern = 0 yields the empty list.  The stored
fields equal the construction parameters. -/
theorem LDecompose.slice_count (nPattern nROI : ℕ) (ws bs : ℕ → ℕ → ℚ) :
    (LDecompose.build nPattern nROI ws bs).nPattern = nPattern ∧
    (LDecompose.build nPattern nROI ws bs).nROI = nROI ∧
    (∀ z, ((LDecompose.build nPattern nROI ws bs).slices z).length = nPattern) ∧
    (∀ xs : List (List ℚ), (∀ r ∈ xs, r.length = nROI) →
      ∃ out, (LDecompose.build nPattern nROI ws bs).forward xs = some out ∧
        out.length = nPattern) ∧
    (nPattern = 0 → ∀ xs : List (List ℚ), (∀ r ∈ xs, r.length = nROI) →
      (LDecompose.build nPattern nROI ws bs).forward xs = some []) := by
  refine ⟨rfl, rfl, fun z => slices_length _ z, ?_, ?_⟩
  · intro xs hrow
    obtain ⟨z, hz, hzb, hzrow⟩ :=
      mapRows_shape (seqApply (LDecompose.build nPattern nROI ws bs).model)
        (nPattern * nROI) xs
        (fun r hr => LDecompose.rowShapeDec nPattern nROI ws bs r (hrow r hr))
    refine ⟨(LDecompose.build nPattern nROI ws bs).slices z, ?_, slices_length _ z⟩
    show (mapRows (seqApply (LDecompose.build nPattern nROI ws bs).model) xs).map _ = _
    rw [hz]
    rfl
  · intro h0 xs hrow
    obtain ⟨z, hz, hzb, hzrow⟩ :=
      mapRows_shape (seqApply (LDecompose.build nPattern nROI ws bs).model)
        (nPattern * nROI) xs
        (fun r hr => LDecompose.rowShapeDec nPattern nROI ws bs r (hrow r hr))
    show (mapRows (seqApply (LDecompose.build nPattern nROI ws bs).model) xs).map _ = _
    rw [hz]
    show some ((LDecompose.build nPattern nROI ws bs).slices z) = some []
    rw [LDecompose.slices]
    rw [show (LDecompose.build nPattern nROI ws bs).nPattern = nPattern from rfl, h0]
    rfl

/-- Witness for C10 (amended): a Decomposer with nPattern = 2, nROI = 1
returns two slices on a well-shaped input, and one with nPattern = 0 returns
the empty list. -/
theorem LDecompose.slice_count_witness :
    (∃ out, (LDecompose.build 2 1 zeroSeed zeroSeed).forward [[0]] = some out ∧
      out.length = 2) ∧
    (LDecompose.build 0 1 zeroSeed zeroSeed).forward [[0]] = some [] :=
  ⟨(LDecompose.slice_count 2 1 zeroSeed zeroSeed).2.2.2.1 [[0]] (by simp),
   (LDecompose.slice_count 0 1 zeroSeed zeroSeed).2.2.2.2 rfl [[0]] (by simp)⟩

theorem LEncoder.rowShapeEnc (nPattern nROI : ℕ) (w1 b1 w2 b2 w3 b3 : ℕ → ℕ → ℚ)
    (x : List ℚ) (hx : x.length = nROI) :
    ∃ y, seqApply (LEncoder.build nPattern nROI w1 b1 w2 b2 w3 b3).model x = some y ∧
      y.length = nPattern := by
  obtain ⟨y1, hy1, hl1⟩ := Linear.build_apply nROI (pyDiv nROI 2) true w1 b1 x hx
  obtain ⟨y2, hy2, hl2⟩ := Linear.build_apply (pyDiv nROI 2) (pyDiv nROI 4) true w2 b2
    (y1.map (leakyReLU (1 / 5))) (by simp [hl1])
  obtain ⟨y3, hy3, hl3⟩ := Linear.build_apply (pyDiv nROI 4) nPattern true w3 b3
    (y2.map (leakyReLU (1 / 5))) (by simp [hl2])
  refine ⟨y3, ?_, hl3⟩
  simp only [LEncoder.build, seqApply, Layer.applyL, Option.some_bind]
  rw [hy1]
  simp only [Option.some_bind]
  rw [hy2]
  simp only [Option.some_bind]
  rw [hy3]
  rfl

/-- Claim C6: the Encoder is exactly the pipeline Linear(nROI→nROI/2) →
LeakyReLU → Linear(nROI/2→nROI/4) → LeakyReLU → Linear(nROI/4→nPattern) with
every linear layer carrying a bias term, and for every input of shape
[batch, nROI] its output has shape [batch, nPattern]. -/
theorem LEncoder.encoderPipeline (nPattern nROI : ℕ) (w1 b1 w2 b2 w3 b3 : ℕ → ℕ → ℚ) :
    (LEncoder.build nPattern nROI w1 b1 w2 b2 w3 b3).model.map Layer.shape =
      [LayerShape.lin nROI (nROI / 2) true, LayerShape.lrelu (1 / 5),
       LayerShape.lin (nROI / 2) (nROI / 4) true, LayerShape.lrelu (1 / 5),
       LayerShape.lin (nROI / 4) nPattern true] ∧
    ∀ (b : ℕ) (xs : List (List ℚ)), xs.length = b → (∀ r ∈ xs, r.length = nROI) →
      ∃ out, (LEncoder.build nPattern nROI w1 b1 w2 b2 w3 b3).forward xs = some out ∧
        out.length = b ∧ ∀ o ∈ out, o.length = nPattern := by
  constructor
  · simp [LEncoder.build, Layer.shape, Linear.build, pyDiv_eq]
  · intro b xs hb hrow
    obtain ⟨out, hout, houtb, houtr⟩ :=
      mapRows_shape (seqApply (LEncoder.build nPattern nROI w1 b1 w2 b2 w3 b3).model)
        nPattern xs
        (fun r hr => LEncoder.rowShapeEnc nPattern nROI w1 b1 w2 b2 w3 b3 r (hrow r hr))
    exact ⟨out, hout, houtb.trans hb, houtr⟩

/-- Witness for C6 at nPattern = 3, nROI = 8, batch of one zero row. -/
theorem LEncoder.encoderPipeline_witness :
    ∃ out, (LEncoder.build 3 8 zeroSeed zeroSeed zeroSeed zeroSeed zeroSeed
        zeroSeed).forward [List.replicate 8 0] = some out ∧
      out.length = 1 ∧ ∀ o ∈ out, o.length = 3 :=
  (LEncoder.encoderPipeline 3 8 zeroSeed zeroSeed zeroSeed zeroSeed zeroSeed zeroSeed).2 1
    [List.replicate 8 0] rfl (by simp)

theorem LDiscriminator.rowShapeDisc (nROI : ℕ) (w1 b1 w2 b2 w3 b3 : ℕ → ℕ → ℚ)
    (x : List ℚ) (hx : x.length = nROI) :
    ∃ y, seqApply (LDiscriminator.build nROI w1 b1 w2 b2 w3 b3).model x = some y ∧
      y.length = 2 := by
  obtain ⟨y1, hy1, hl1⟩ := Linear.build_apply nROI (pyDiv nROI 2) true w1 b1 x hx
  obtain ⟨y2, hy2, hl2⟩ := Linear.build_apply (pyDiv nROI 2) (pyDiv nROI 4) true w2 b2
    (y1.map (leakyReLU (1 / 5))) (by simp [hl1])
  obtain ⟨y3, hy3, hl3⟩ := Linear.build_apply (pyDiv nROI 4) 2 true w3 b3
    (y2.map (leakyReLU (1 / 5))) (by simp [hl2])
  refine ⟨y3, ?_, hl3⟩
  simp only [LDiscriminator.build, seqApply, Layer.applyL, Option.some_bind]
  rw [hy1]
  simp only [Option.some_bind]
  rw [hy2]
  simp only [Option.some_bind]
  rw [hy3]
  rfl

/-- Claim C7: the Discriminator is exactly the pipeline
Linear(nROI→nROI/2, bias) → LeakyReLU → Linear(nROI/2→nROI/4, bias) →
LeakyReLU → Linear(nROI/4→2, bias), with no softmax stage; for every nROI
divisible by 4 and every input of shape [batch, nROI] its output has shape
[batch, 2]. -/
theorem LDiscriminator.discPipeline (nROI : ℕ) (w1 b1 w2 b2 w3 b3 : ℕ → ℕ → ℚ)
    (hdvd : 4 ∣ nROI) :
    (LDiscriminator.build nROI w1 b1 w2 b2 w3 b3).model.map Layer.shape =
      [LayerShape.lin nROI (nROI / 2) true, LayerShape.lrelu (1 / 5),
       LayerShape.lin (nROI / 2) (nROI / 4) true, LayerShape.lrelu (1 / 5),
       LayerShape.lin (nROI / 4) 2 true] ∧
    ∀ (b : ℕ) (xs : List (List ℚ)), xs.length = b → (∀ r ∈ xs, r.length = nROI) →
      ∃ out, (LDiscriminator.build nROI w1 b1 w2 b2 w3 b3).forward xs = some out ∧
        out.length = b ∧ ∀ o ∈ out, o.length = 2 := by
  constructor
  · simp [LDiscriminator.build, Layer.shape, Linear.build, pyDiv_eq]
  · intro b xs hb hrow
    obtain ⟨out, hout, houtb, houtr⟩ :=
      mapRows_shape (seqApply (LDiscriminator.build nROI w1 b1 w2 b2 w3 b3).model) 2 xs
        (fun r hr => LDiscriminator.rowShapeDisc nROI w1 b1 w2 b2 w3 b3 r (hrow r hr))
    exact ⟨out, hout, houtb.trans hb, houtr⟩

/-- Witness for C7 at nROI = 4, batch of one zero row. -/
theorem LDiscriminator.discPipeline_witness :
    ∃ out, (LDiscriminator.build 4 zeroSeed zeroSeed zeroSeed zeroSeed zeroSeed
        zeroSeed).forward [[0, 0, 0, 0]] = some out ∧
      out.length = 1 ∧ ∀ o ∈ out, o.length = 2 :=
  (LDiscriminator.discPipeline 4 zeroSeed zeroSeed zeroSeed zeroSeed zeroSeed zeroSeed
    (by norm_num)).2 1 [[0, 0, 0, 0]] rfl (by simp)

/-- Claim C8: for every positive nROI — including values not divisible by 4 —
constructing the generator, encoder, or discriminator succeeds (the
constructors are total functions), and the intermediate layer widths are
produced by truncating int(nROI/2) and int(nROI/4), which for positive nROI
is exactly floor division, rather than by validating divisibility. -/
theorem construct_truncates (nROI nPattern : ℕ) (s : ℕ → ℕ → ℚ) (h : 0 < nROI) :
    pyDiv nROI 2 = nROI / 2 ∧ pyDiv nROI 4 = nROI / 4 ∧
    (LMappingGenerator.build nPattern nROI s s s s s s).model.map GLayer.shape =
      [GLayerShape.single (LayerShape.lin nROI (nROI / 2) false),
       GLayerShape.single (LayerShape.lrelu (1 / 5)),
       GLayerShape.single (LayerShape.lin (nROI / 2) (nROI / 4) false),
       GLayerShape.single (LayerShape.lrelu (1 / 5)),
       GLayerShape.dual (nROI / 4) nPattern,
       GLayerShape.single (LayerShape.lin (nROI / 4) (nROI / 2) false),
       GLayerShape.single (LayerShape.lrelu (1 / 5)),
       GLayerShape.single (LayerShape.lin (nROI / 2) nROI false),
       GLayerShape.single (LayerShape.lrelu (1 / 5))] ∧
    (LEncoder.build nPattern nROI s s s s s s).model.map Layer.shape =
      [LayerShape.lin nROI (nROI / 2) true, LayerShape.lrelu (1 / 5),
       LayerShape.lin (nROI / 2) (nROI / 4) true, LayerShape.lrelu (1 / 5),
       LayerShape.lin (nROI / 4) nPattern true] ∧
    (LDiscriminator.build nROI s s s s s s).model.map Layer.shape =
      [LayerShape.lin nROI (nROI / 2) true, LayerShape.lrelu (1 / 5),
       LayerShape.lin (nROI / 2) (nROI / 4) true, LayerShape.lrelu (1 / 5),
       LayerShape.lin (nROI / 4) 2 true] := by
  refine ⟨pyDiv_eq nROI 2, pyDiv_eq nROI 4, ?_, ?_, ?_⟩
  · simp [LMappingGenerator.build, GLayer.shape, Layer.shape, Linear.build,
      SubAdder.build, pyDiv_eq]
  · simp [LEncoder.build, Layer.shape, Linear.build, pyDiv_eq]
  · simp [LDiscriminator.build, Layer.shape, Linear.build, pyDiv_eq]

/-- Witness for C8 at nROI = 3 (not divisible by 4), nPattern = 5: the
halving widths truncate to 1 and 0 and construction still succeeds. -/
theorem construct_truncates_witness :
    pyDiv 3 2 = 1 ∧ pyDiv 3 4 = 0 ∧
    (LMappingGenerator.build 5 3 zeroSeed zeroSeed zeroSeed zeroSeed zeroSeed
        zeroSeed).model.map GLayer.shape =
      [GLayerShape.single (LayerShape.lin 3 1 false),
       GLayerShape.single (LayerShape.lrelu (1 / 5)),
       GLayerShape.single (LayerShape.lin 1 0 false),
       GLayerShape.single (LayerShape.lrelu (1 / 5)),
       GLayerShape.dual 0 5,
       GLayerShape.single (LayerShape.lin 0 1 false),
       GLayerShape.single (LayerShape.lrelu (1 / 5)),
       GLayerShape.single (LayerShape.lin 1 3 false),
       GLayerShape.single (LayerShape.lrelu (1 / 5))] ∧
    (LEncoder.build 5 3 zeroSeed zeroSeed zeroSeed zeroSeed zeroSeed
        zeroSeed).model.map Layer.shape =
      [LayerShape.lin 3 1 true, LayerShape.lrelu (1 / 5),
       LayerShape.lin 1 0 true, LayerShape.lrelu (1 / 5),
       LayerShape.lin 0 5 true] ∧
    (LDiscriminator.build 3 zeroSeed zeroSeed zeroSeed zeroSeed zeroSeed
        zeroSeed).model.map Layer.shape =
      [LayerShape.lin 3 1 true, LayerShape.lrelu (1 / 5),
       LayerShape.lin 1 0 true, LayerShape.lrelu (1 / 5),
       LayerShape.lin 0 2 true] :=
  construct_truncates 3 5 zeroSeed (by norm_num)

theorem mapRows2_shape (f : List ℚ → List ℚ → Option (List ℚ)) (n : ℕ) :
    ∀ xs zs : List (List ℚ), xs.length = zs.length →
      (∀ x ∈ xs, ∀ z ∈ zs, ∃ o, f x z = some o ∧ o.length = n) →
      ∃ out, mapRows2 f xs zs = some out ∧ out.length = xs.length ∧
        ∀ o ∈ out, o.length = n := by
  intro xs
  induction xs with
  | nil =>
    intro zs hlen _
    cases zs with
    | nil => exact ⟨[], rfl, rfl, by simp⟩
    | cons z zs => simp at hlen
  | cons x xs ih =>
    intro zs hlen h
    cases zs with
    | nil => simp at hlen
    | cons z zs =>
      obtain ⟨o, ho, hol⟩ :=
        h x (List.mem_cons_self x xs) z (List.mem_cons_self z zs)
      obtain ⟨out, hout, houtl, houtm⟩ := ih zs (by simpa using hlen)
        (fun a ha b hb => h a (List.mem_cons_of_mem _ ha) b (List.mem_cons_of_mem _ hb))
      refine ⟨o :: out, ?_, by simp [houtl], ?_⟩
      · simp only [mapRows2]
        rw [ho]
        simp only [Option.some_bind]
        rw [hout]
        rfl
      · intro t ht
        rcases List.mem_cons.1 ht with h1 | h2
        · exact h1 ▸ hol
        · exact houtm t h2

theorem LMappingGenerator.rowShapeGen (nPattern nROI : ℕ)
    (w1 w2 wS bS w3 w4 : ℕ → ℕ → ℚ) (x z : List ℚ)
    (hx : x.length = nROI) (hz : z.length = nPattern)
    (hp : nPattern = pyDiv nROI 4) :
    ∃ y, twoInputApply (LMappingGenerator.build nPattern nROI w1 w2 wS bS w3 w4).model
        x z = some y ∧ y.length = nROI := by
  obtain ⟨y1, hy1, hl1⟩ := Linear.build_apply nROI (pyDiv nROI 2) false w1 w1 x hx
  obtain ⟨y2, hy2, hl2⟩ := Linear.build_apply (pyDiv nROI 2) (pyDiv nROI 4) false w2 w2
    (y1.map (leakyReLU (1 / 5))) (by simp [hl1])
  obtain ⟨p, hpa, hpl⟩ := Linear.build_apply (pyDiv nROI 4) nPattern true wS bS
    (y2.map (leakyReLU (1 / 5))) (by simp [hl2])
  have hguard : z.length = p.length := by rw [hz, hpl]
  have hfusedlen : (List.zipWith (fun a b => a + b) p z).length = pyDiv nROI 4 := by
    rw [List.length_zipWith, hpl, hz, ← hp]
    exact Nat.min_self nPattern
  obtain ⟨y3, hy3, hl3⟩ := Linear.build_apply (pyDiv nROI 4) (pyDiv nROI 2) false w3 w3
    (List.zipWith (fun a b => a + b) p z) hfusedlen
  obtain ⟨y4, hy4, hl4⟩ := Linear.build_apply (pyDiv nROI 2) nROI false w4 w4
    (y3.map (leakyReLU (1 / 5))) (by simp [hl3])
  refine ⟨y4.map (leakyReLU (1 / 5)), ?_, by simp [hl4]⟩
  simp only [LMappingGenerator.build, twoInputApply, Layer.applyL, SubAdder.build,
    SubAdder.applyS, Option.some_bind]
  rw [hy1]
  simp only [Option.some_bind]
  rw [hy2]
  simp only [Option.some_bind]
  rw [hpa]
  simp only [Option.some_bind]
  rw [if_pos hguard]
  simp only [Option.some_bind]
  rw [hy3]
  simp only [Option.some_bind]
  rw [hy4]
  rfl

/-- Counterexample to claim C2 as stated: with nROI = 4 (divisible by 4) and
nPattern = 2 ≥ 1, the spec-modelled composition primitive leaves an
nPattern-wide activation that the following Linear(int(nROI/4), int(nROI/2))
layer rejects (its fan-in is 1), so forward fails with a shape error instead
of returning a [batch, nROI] tensor. -/
theorem LMappingGenerator.forward_cex :
    (LMappingGenerator.build 2 4 zeroSeed zeroSeed zeroSeed zeroSeed zeroSeed
      zeroSeed).forward [[0, 0, 0, 0]] [[0, 0]] = none := by
  obtain ⟨y1, hy1, hl1⟩ :=
    Linear.build_apply 4 (pyDiv 4 2) false zeroSeed zeroSeed [0, 0, 0, 0] (by norm_num)
  obtain ⟨y2, hy2, hl2⟩ :=
    Linear.build_apply (pyDiv 4 2) (pyDiv 4 4) false zeroSeed zeroSeed
      (y1.map (leakyReLU (1 / 5))) (by simp [hl1])
  obtain ⟨p, hpa, hpl⟩ :=
    Linear.build_apply (pyDiv 4 4) 2 true zeroSeed zeroSeed
      (y2.map (leakyReLU (1 / 5))) (by simp [hl2])
  have hguard : ([0, 0] : List ℚ).length = p.length := by
    rw [hpl]
    rfl
  have hfusedlen : (List.zipWith (fun a b => a + b) p ([0, 0] : List ℚ)).length = 2 := by
    rw [List.length_zipWith, hpl]
    rfl
  have hfail : (Linear.build (pyDiv 4 4) (pyDiv 4 2) false zeroSeed zeroSeed).apply
      (List.zipWith (fun a b => a + b) p ([0, 0] : List ℚ)) = none := by
    have hcond : ¬((List.zipWith (fun a b => a + b) p ([0, 0] : List ℚ)).length =
        (Linear.build (pyDiv 4 4) (pyDiv 4 2) false zeroSeed zeroSeed).inF) := by
      rw [hfusedlen, Linear.build_inF, pyDiv_eq]
      norm_num
    rw [Linear.apply, if_neg hcond]
  show mapRows2 _ [[0, 0, 0, 0]] [[0, 0]] = none
  simp only [mapRows2, LMappingGenerator.build, twoInputApply, Layer.applyL,
    SubAdder.build, SubAdder.applyS, Option.some_bind]
  rw [hy1]
  simp only [Option.some_bind]
  rw [hy2]
  simp only [Option.some_bind]
  rw [hpa]
  simp only [Option.some_bind]
  rw [if_pos hguard]
  simp only [Option.some_bind]
  rw [hfail]
  rfl

/-- Claim C2 (amended): for every nROI divisible by 4, every nPattern ≥ 1
with nPattern = nROI/4, and every batch size b, the Mapping Generator applied
to input_x of shape [b, nROI] and input_z of shape [b, nPattern] returns a
tensor of shape [b, nROI].  (With the spec-modelled composition primitive,
whose combined representation is nPattern-wide, the pipeline only composes
when nPattern equals int(nROI/4), the fan-in of the first expansion layer.) -/
theorem LMappingGenerator.forward_shape (nPattern nROI b : ℕ)
    (w1 w2 wS bS w3 w4 : ℕ → ℕ → ℚ) (xs zs : List (List ℚ))
    (hdvd : 4 ∣ nROI) (hp1 : 1 ≤ nPattern) (hp : nPattern = nROI / 4)
    (hxb : xs.length = b) (hzb : zs.length = b)
    (hxr : ∀ r ∈ xs, r.length = nROI) (hzr : ∀ r ∈ zs, r.length = nPattern) :
    ∃ out, (LMappingGenerator.build nPattern nROI w1 w2 wS bS w3 w4).forward xs zs =
        some out ∧ out.length = b ∧ ∀ o ∈ out, o.length = nROI := by
  have hp2 : nPattern = pyDiv nROI 4 := by rw [pyDiv_eq]; exact hp
  obtain ⟨out, hout, houtl, houtm⟩ :=
    mapRows2_shape
      (fun x z =>
        twoInputApply (LMappingGenerator.build nPattern nROI w1 w2 wS bS w3 w4).model x z)
      nROI xs zs (hxb.trans hzb.symm)
      (fun x hxm z hzm =>
        LMappingGenerator.rowShapeGen nPattern nROI w1 w2 wS bS w3 w4 x z
          (hxr x hxm) (hzr z hzm) hp2)
  exact ⟨out, hout, houtl.trans hxb, houtm⟩

/-- Witness for C2 (amended) at nROI = 8, nPattern = 2, batch of one zero
row. -/
theorem LMappingGenerator.forward_shape_witness :
    ∃ out, (LMappingGenerator.build 2 8 zeroSeed zeroSeed zeroSeed zeroSeed zeroSeed
        zeroSeed).forward [List.replicate 8 0] [[0, 0]] = some out ∧
      out.length = 1 ∧ ∀ o ∈ out, o.length = 8 :=
  LMappingGenerator.forward_shape 2 8 1 zeroSeed zeroSeed zeroSeed zeroSeed zeroSeed
    zeroSeed [List.replicate 8 0] [[0, 0]] (by norm_num) (by norm_num) (by norm_num)
    rfl rfl (by simp) (by simp)

/-- Claim C3: in the Mapping Generator pipeline, the composition-primitive
layer placed after the two halving blocks (position 4 of the stack) takes the
current nROI/4-wide activation together with input_z and produces an
nPattern-wide combined representation, and the next stage of the stack is the
first expansion linear layer (fan-in nROI/4, fan-out nROI/2). -/
theorem LMappingGenerator.composition_layer (nPattern nROI : ℕ)
    (w1 w2 wS bS w3 w4 : ℕ → ℕ → ℚ) :
    ∃ s, (LMappingGenerator.build nPattern nROI w1 w2 wS bS w3 w4).model[4]? =
        some (GLayer.dual s) ∧
      s.proj.inF = nROI / 4 ∧ s.proj.outF = nPattern ∧
      (∀ x z : List ℚ, x.length = nROI / 4 → z.length = nPattern →
        ∃ y, s.applyS x z = some y ∧ y.length = nPattern) ∧
      ∃ l, (LMappingGenerator.build nPattern nROI w1 w2 wS bS w3 w4).model[5]? =
          some (GLayer.single (Layer.lin l)) ∧
        l.inF = nROI / 4 ∧ l.outF = nROI / 2 := by
  refine ⟨SubAdder.build (pyDiv nROI 4) nPattern wS bS, rfl, pyDiv_eq nROI 4, rfl, ?_,
    Linear.build (pyDiv nROI 4) (pyDiv nROI 2) false w3 w3, rfl, pyDiv_eq nROI 4,
    pyDiv_eq nROI 2⟩
  intro x z hx hz
  obtain ⟨p, hpa, hpl⟩ := Linear.build_apply (pyDiv nROI 4) nPattern true wS bS x
    (by rw [hx, pyDiv_eq])
  have hguard : z.length = p.length := by rw [hz, hpl]
  refine ⟨List.zipWith (fun a b => a + b) p z, ?_, ?_⟩
  · simp only [SubAdder.build, SubAdder.applyS]
    rw [hpa]
    simp only [Option.some_bind]
    rw [if_pos hguard]
  · rw [List.length_zipWith, hpl, hz]
    exact Nat.min_self nPattern

/-- Witness for C3 at nROI = 8, nPattern = 2: the composition stage is at
position 4 with fan-in 2 and fan-out 2, and on a 2-wide activation and a
2-wide latent code it produces a 2-wide combined representation. -/
theorem LMappingGenerator.composition_layer_witness :
    ∃ s, (LMappingGenerator.build 2 8 zeroSeed zeroSeed zeroSeed zeroSeed zeroSeed
        zeroSeed).model[4]? = some (GLayer.dual s) ∧
      s.proj.inF = 8 / 4 ∧ s.proj.outF = 2 ∧
      ∃ y, s.applyS [0, 0] [0, 0] = some y ∧ y.length = 2 := by
  obtain ⟨s, hs, hin, hout, happ, -⟩ :=
    LMappingGenerator.composition_layer 2 8 zeroSeed zeroSeed zeroSeed zeroSeed
      zeroSeed zeroSeed
  exact ⟨s, hs, hin, hout, happ [0, 0] [0, 0] (by simp) (by simp)⟩

/-- Claim C4: for every module, if its class name contains "Linear" the
initializer replaces the weight tensor in place with the fresh
normal(0, 0.1) draw while leaving the bias and everything else unchanged;
every module whose class name does not contain "Linear" is left entirely
unchanged, and no error is raised (the initializer is a total function). -/
theorem weights_init_spec (normal : ℚ → ℚ → List (List ℚ)) (m : TorchModule) :
    (strFind m.className "Linear" = true →
      weights_init normal m =
        { className := m.className, weight := normal 0 (1 / 10), bias := m.bias }) ∧
    (strFind m.className "Linear" = false → weights_init normal m = m) := by
  constructor
  · intro h
    rw [weights_init, if_pos h]
  · intro h
    rw [weights_init, if_neg (by rw [h]; exact Bool.false_ne_true)]

/-- Witness for C4 on a "Linear" module (weight replaced, bias kept) and on a
"LeakyReLU" module (untouched). -/
theorem weights_init_spec_witness :
    weights_init (fun _ _ => [[0]]) ⟨"Linear", [[5]], some [3]⟩ =
      { className := "Linear", weight := [[0]], bias := some [3] } ∧
    weights_init (fun _ _ => [[0]]) ⟨"LeakyReLU", [[5]], some [3]⟩ =
      ⟨"LeakyReLU", [[5]], some [3]⟩ :=
  ⟨(weights_init_spec (fun _ _ => [[0]]) ⟨"Linear", [[5]], some [3]⟩).1 (by decide),
   (weights_init_spec (fun _ _ => [[0]]) ⟨"LeakyReLU", [[5]], some [3]⟩).2 (by decide)⟩

theorem tanh_bounds (y : ℝ) : -1 < Real.tanh y ∧ Real.tanh y < 1 := by
  constructor
  · rw [Real.tanh_eq_sinh_div_cosh, lt_div_iff (Real.cosh_pos y)]
    have h := Real.sinh_lt_cosh (-y)
    rw [Real.sinh_neg, Real.cosh_neg] at h
    linarith
  · rw [Real.tanh_eq_sinh_div_cosh, div_lt_one (Real.cosh_pos y)]
    exact Real.sinh_lt_cosh y

/-- Claim C5: for every ndim ≥ 1 and every setting of the linear-layer
weights of the Latent-Correlation Network, every entry of the vector returned
by forward lies strictly within (-1, 1), because the final element-wise tanh
has range
(-1, 1). -/
theorem LLatentCorr.output_bounded (ndim : ℕ) (s1 s2 : ℕ → ℕ → ℝ) (hn : 1 ≤ ndim)
    (x : ℝ) (hx : x ∈ ((LLatentCorr.build ndim s1 s2).forward).2) :
    -1 < x ∧ x < 1 := by
  simp only [LLatentCorr.forward, LLatentCorr.outputWith] at hx
  obtain ⟨y, -, rfl⟩ := List.mem_map.1 hx
  exact tanh_bounds y

/-- Witness for C5 at ndim = 1 with zero weights: the single output entry is
tanh 0, strictly inside (-1, 1). -/
theorem LLatentCorr.output_bounded_witness :
    -1 < Real.tanh 0 ∧ Real.tanh 0 < 1 :=
  LLatentCorr.output_bounded 1 (fun _ _ => 0) (fun _ _ => 0) (by norm_num) (Real.tanh 0)
    (by simp [LLatentCorr.build, LLatentCorr.forward, LLatentCorr.outputWith, dotR,
      leakyReLUR, freshParam])

/-- Claim C9: forward of the Latent-Correlation Network is deterministic
given the linear-layer weights: the module state is returned unchanged (the
fresh parameter node, always initialized to exactly 1.0, is never retained),
two sequential invocations return identical outputs, and any two modules with
equal weights produce equal outputs. -/
theorem LLatentCorr.forward_deterministic (m mm : LLatentCorr)
    (h1 : m.w1 = mm.w1) (h2 : m.w2 = mm.w2) :
    m.forward.1 = m ∧ freshParam = 1 ∧
      (m.forward.1).forward.2 = m.forward.2 ∧
      m.forward.2 = mm.forward.2 := by
  have hout : LLatentCorr.outputWith m freshParam = LLatentCorr.outputWith mm freshParam := by
    rw [LLatentCorr.outputWith, LLatentCorr.outputWith, h1, h2]
  exact ⟨rfl, rfl, rfl, hout⟩

/-- Witness for C9 on a concrete one-dimensional module. -/
theorem LLatentCorr.forward_deterministic_witness :
    (LLatentCorr.mk [0] [[0]]).forward.1 = LLatentCorr.mk [0] [[0]] ∧
      freshParam = 1 ∧
      ((LLatentCorr.mk [0] [[0]]).forward.1).forward.2 =
        (LLatentCorr.mk [0] [[0]]).forward.2 ∧
      (LLatentCorr.mk [0] [[0]]).forward.2 = (LLatentCorr.mk [0] [[0]]).forward.2 :=
  LLatentCorr.forward_deterministic (LLatentCorr.mk [0] [[0]])
    (LLatentCorr.mk [0] [[0]]) rfl rfl
